import Mathlib

/-!
Verification of the ring sky-model generator
(`generate_ring_sky_model.py`).

The script builds a component list for a central disk plus `n_rings`
concentric annuli.  Each annulus is realised as an outer disk with flux
`Fout` and an inner disk with flux `-Finn`.  Two flux modes exist:

* surface-brightness mode (`ring_surface_brightness` set): `I` is the
  given surface brightness, `Fout = I*Aout`, `Finn = I*Ain`;
* total-flux mode (`ring_surface_brightness` unset): the per-ring flux
  `ring_flux` (falling back to `flux`) is divided by the annulus area,
  `I = ring_flux / Aring`, then the same `Fout`/`Finn` formulas apply.

Python floats are idealised as exact rationals; `math.pi` is the IEEE-754
double closest to pi, an exact rational, kept as such here.  Python's
float division raises `ZeroDivisionError` on a zero divisor; that fallible
division is modelled with `Except`.
-/

namespace RingSkyModel

/-- The exact rational value of `math.pi`, the IEEE-754 double closest to
pi (`884279719003555 / 2^48`), as used by the script's area formulas. -/
def mathPi : ℚ := 884279719003555 / 281474976710656

/-- The configuration fields of the script that the ring computation
reads (`args.*` in `main`).  Optional fields are `Option` exactly as the
script treats `None`. -/
structure Args where
  central_diameter : ℚ
  ring_thickness : ℚ
  ring_spacing : ℚ
  n_rings : ℕ
  flux : ℚ
  central_flux : Option ℚ
  ring_flux : Option ℚ
  ring_surface_brightness : Option ℚ
deriving Repr

/-- `Rc = float(args.central_diameter) / 2.0` (line 59). -/
def Rc (a : Args) : ℚ := a.central_diameter / 2

/-- `Rin = Rc + j * (args.ring_thickness + args.ring_spacing)` (line 61). -/
def Rin (a : Args) (j : ℕ) : ℚ :=
  Rc a + (j : ℚ) * (a.ring_thickness + a.ring_spacing)

/-- `Rout = Rin + args.ring_thickness` (line 62). -/
def Rout (a : Args) (j : ℕ) : ℚ := Rin a j + a.ring_thickness

/-- `Aout = math.pi * (Rout**2)` (line 65). -/
def Aout (a : Args) (j : ℕ) : ℚ := mathPi * (Rout a j) ^ 2

/-- `Ain = math.pi * (Rin**2)` (line 66). -/
def Ain (a : Args) (j : ℕ) : ℚ := mathPi * (Rin a j) ^ 2

/-- `Aring = Aout - Ain` (line 67). -/
def Aring (a : Args) (j : ℕ) : ℚ := Aout a j - Ain a j

/-- `central_flux = args.central_flux if args.central_flux is not None
else args.flux` (line 55). -/
def resolvedCentralFlux (a : Args) : ℚ := a.central_flux.getD a.flux

/-- `ring_flux = args.ring_flux if args.ring_flux is not None else
args.flux` (line 76). -/
def resolvedRingFlux (a : Args) : ℚ := a.ring_flux.getD a.flux

/-- The error the ring computation can signal: Python raises
`ZeroDivisionError` when `ring_flux / Aring` divides by an exactly zero
annulus area (the degenerate-ring case of the design). -/
inductive RingError where
  | degenerate
deriving Repr, DecidableEq

/-- The surface brightness `I` used for ring `j` (lines 69-78): the given
`ring_surface_brightness` when set, else `ring_flux / Aring`, which in
Python raises on a zero `Aring`. -/
def ringI (a : Args) (j : ℕ) : Except RingError ℚ :=
  match a.ring_surface_brightness with
  | some I => Except.ok I
  | none =>
      if Aring a j = 0 then Except.error RingError.degenerate
      else Except.ok (resolvedRingFlux a / Aring a j)

/-- The pair `(Fout, Finn)` for ring `j`: `Fout = I * Aout`,
`Finn = I * Ain` in both branches (lines 72-73 and 79-80). -/
def ringFluxes (a : Args) (j : ℕ) : Except RingError (ℚ × ℚ) :=
  match ringI a j with
  | Except.error e => Except.error e
  | Except.ok I => Except.ok (I * Aout a j, I * Ain a j)

/-- A sky-model component as emitted by `add_disk` (lines 20-32): a disk
with equal major and minor axes, fixed position angle `0deg`, signed
total flux. -/
structure DiskComponent where
  dir : String
  diameter : ℚ
  flux : ℚ
  freq : String
  positionangle : ℚ
deriving Repr, DecidableEq

/-- `add_disk(cl, center_dir, diameter_arcsec, total_flux_jy, freq)`
(lines 20-32), returning the component it appends. -/
def add_disk (center_dir : String) (diameter_arcsec : ℚ)
    (total_flux_jy : ℚ) (freq : String) : DiskComponent :=
  { dir := center_dir, diameter := diameter_arcsec, flux := total_flux_jy,
    freq := freq, positionangle := 0 }

/-- The ring loop `for j in range(args.n_rings)` (lines 60-84), run over
an explicit list of indices: for each `j` it appends the outer disk
(diameter `2*Rout`, flux `Fout`) then the inner disk (diameter `2*Rin`,
flux `-Finn`); any `ZeroDivisionError` aborts the run. -/
def ringsLoop (center_dir freq : String) (a : Args) :
    List ℕ → Except RingError (List DiskComponent)
  | [] => Except.ok []
  | j :: js =>
      match ringFluxes a j with
      | Except.error e => Except.error e
      | Except.ok p =>
          match ringsLoop center_dir freq a js with
          | Except.error e => Except.error e
          | Except.ok rest =>
              Except.ok (add_disk center_dir (2 * Rout a j) p.1 freq ::
                add_disk center_dir (2 * Rin a j) (-p.2) freq :: rest)

/-- The component-assembly part of `main` (lines 54-84): the central disk
(diameter `central_diameter`, flux `resolvedCentralFlux`) followed by the
ring components in ascending index order. -/
def buildModel (center_dir freq : String) (a : Args) :
    Except RingError (List DiskComponent) :=
  match ringsLoop center_dir freq a (List.range a.n_rings) with
  | Except.error e => Except.error e
  | Except.ok rings =>
      Except.ok (add_disk center_dir a.central_diameter
        (resolvedCentralFlux a) freq :: rings)

/-- One `str.replace(old, new)` step with single-character `old`/`new`,
on the character sequence of the string. -/
def replaceChar (old new : Char) (s : List Char) : List Char :=
  s.map fun c => if c = old then new else c

/-- One `str.replace(old, "")` step with a single-character `old`. -/
def deleteChar (old : Char) (s : List Char) : List Char :=
  s.filter fun c => c ≠ old

/-- `tag = args.dec_center.replace('-', 'm').replace('+', 'p')
.replace('d', '').replace('.', '')` (line 90). -/
def decTag (s : List Char) : List Char :=
  deleteChar '.' (deleteChar 'd' (replaceChar '+' 'p' (replaceChar '-' 'm' s)))

/-- The CLI default configuration of the script (lines 134-143). -/
def cliArgs : Args :=
  { central_diameter := 0.0045, ring_thickness := 0.0045,
    ring_spacing := 0.009, n_rings := 3, flux := 2.7e-4,
    central_flux := none, ring_flux := none,
    ring_surface_brightness := none }

lemma mathPi_pos : 0 < mathPi := by norm_num [mathPi]

lemma Rin_nonneg (a : Args) (j : ℕ) (ht : 0 < a.ring_thickness)
    (hs : 0 ≤ a.ring_spacing) (hc : 0 ≤ a.central_diameter) :
    0 ≤ Rin a j := by
  have hj : (0 : ℚ) ≤ (j : ℚ) := Nat.cast_nonneg j
  unfold Rin Rc
  nlinarith

lemma Aring_eq (a : Args) (j : ℕ) :
    Aring a j =
      mathPi * (a.ring_thickness * (2 * Rin a j + a.ring_thickness)) := by
  unfold Aring Aout Ain Rout
  ring

lemma Aring_pos (a : Args) (j : ℕ) (ht : 0 < a.ring_thickness)
    (hs : 0 ≤ a.ring_spacing) (hc : 0 ≤ a.central_diameter) :
    0 < Aring a j := by
  rw [Aring_eq]
  have hR := Rin_nonneg a j ht hs hc
  have h2 : 0 < 2 * Rin a j + a.ring_thickness := by linarith
  exact mul_pos mathPi_pos (mul_pos ht h2)

lemma ringI_total (a : Args) (j : ℕ)
    (hsb : a.ring_surface_brightness = none) (hA : Aring a j ≠ 0) :
    ringI a j = Except.ok (resolvedRingFlux a / Aring a j) := by
  unfold ringI
  rw [hsb]
  simp [hA]

lemma ringI_sb (a : Args) (j : ℕ) (I : ℚ)
    (hsb : a.ring_surface_brightness = some I) :
    ringI a j = Except.ok I := by
  unfold ringI
  rw [hsb]

lemma ringFluxes_total (a : Args) (j : ℕ)
    (hsb : a.ring_surface_brightness = none) (hA : Aring a j ≠ 0) :
    ringFluxes a j =
      Except.ok (resolvedRingFlux a / Aring a j * Aout a j,
        resolvedRingFlux a / Aring a j * Ain a j) := by
  unfold ringFluxes
  rw [ringI_total a j hsb hA]

lemma ringFluxes_sb (a : Args) (j : ℕ) (I : ℚ)
    (hsb : a.ring_surface_brightness = some I) :
    ringFluxes a j = Except.ok (I * Aout a j, I * Ain a j) := by
  unfold ringFluxes
  rw [ringI_sb a j I hsb]

lemma net_flux_total (a : Args) (j : ℕ) (hA : Aring a j ≠ 0) :
    resolvedRingFlux a / Aring a j * Aout a j -
        resolvedRingFlux a / Aring a j * Ain a j = resolvedRingFlux a := by
  have h : Aout a j - Ain a j = Aring a j := rfl
  rw [← mul_sub, h]
  exact div_mul_cancel₀ _ hA

lemma Rin_lt_succ (a : Args) (j : ℕ) (ht : 0 < a.ring_thickness)
    (hs : 0 ≤ a.ring_spacing) : Rin a j < Rin a (j + 1) := by
  unfold Rin
  push_cast
  nlinarith

lemma Aring_lt_succ (a : Args) (j : ℕ) (ht : 0 < a.ring_thickness)
    (hs : 0 ≤ a.ring_spacing) (hc : 0 ≤ a.central_diameter) :
    Aring a j < Aring a (j + 1) := by
  rw [Aring_eq, Aring_eq]
  have h1 := Rin_lt_succ a j ht hs
  have h3 : 0 < mathPi * a.ring_thickness * (Rin a (j + 1) - Rin a j) :=
    mul_pos (mul_pos mathPi_pos ht) (sub_pos.mpr h1)
  nlinarith [h3]

/-- Claim C1: in total-flux mode, whenever the annulus area is strictly
positive the computed per-ring fluxes satisfy `Fout - Finn =
resolvedRingFlux` (the resolved ring flux), for every ring index `j`,
independently of the individual radii. -/
theorem flux_invariance (a : Args) (j : ℕ)
    (hsb : a.ring_surface_brightness = none)
    (hc : 0 ≤ a.central_diameter) (hA : 0 < Aring a j) :
    ∃ Fout Finn : ℚ, ringFluxes a j = Except.ok (Fout, Finn) ∧
      Fout - Finn = resolvedRingFlux a := by
  have hA0 : Aring a j ≠ 0 := ne_of_gt hA
  exact ⟨_, _, ringFluxes_total a j hsb hA0, net_flux_total a j hA0⟩

/-- Witness for C1: the CLI default configuration at ring index 0. -/
theorem flux_invariance_witness :
    cliArgs.ring_surface_brightness = none ∧
    0 ≤ cliArgs.central_diameter ∧ 0 < Aring cliArgs 0 ∧
    ∃ Fout Finn : ℚ, ringFluxes cliArgs 0 = Except.ok (Fout, Finn) ∧
      Fout - Finn = resolvedRingFlux cliArgs :=
  ⟨rfl, by norm_num [cliArgs],
    by norm_num [Aring, Aout, Ain, Rout, Rin, Rc, cliArgs, mathPi],
    flux_invariance cliArgs 0 rfl (by norm_num [cliArgs])
      (by norm_num [Aring, Aout, Ain, Rout, Rin, Rc, cliArgs, mathPi])⟩

/-- Claim C5: in surface-brightness mode, `Fout = I*Aout` and
`Finn = I*Ain`, so `Fout - Finn = I*Aring`, and when the annulus area is
nonzero `(Fout - Finn) / Aring = I`. -/
theorem surface_brightness_consistency (a : Args) (j : ℕ) (I : ℚ)
    (hsb : a.ring_surface_brightness = some I) :
    ringFluxes a j = Except.ok (I * Aout a j, I * Ain a j) ∧
    I * Aout a j - I * Ain a j = I * Aring a j ∧
    (Aring a j ≠ 0 → (I * Aout a j - I * Ain a j) / Aring a j = I) := by
  refine ⟨ringFluxes_sb a j I hsb, ?_, ?_⟩
  · unfold Aring
    ring
  · intro hA
    have h : I * Aout a j - I * Ain a j = I * Aring a j := by
      unfold Aring
      ring
    rw [h]
    exact mul_div_cancel_right₀ I hA

/-- Witness for C5: the CLI default geometry with surface brightness 1. -/
theorem surface_brightness_consistency_witness :
    ringFluxes { cliArgs with ring_surface_brightness := some 1 } 0 =
      Except.ok (1 * Aout { cliArgs with ring_surface_brightness := some 1 } 0,
        1 * Ain { cliArgs with ring_surface_brightness := some 1 } 0) ∧
    1 * Aout { cliArgs with ring_surface_brightness := some 1 } 0 -
        1 * Ain { cliArgs with ring_surface_brightness := some 1 } 0 =
      1 * Aring { cliArgs with ring_surface_brightness := some 1 } 0 ∧
    (Aring { cliArgs with ring_surface_brightness := some 1 } 0 ≠ 0 →
      (1 * Aout { cliArgs with ring_surface_brightness := some 1 } 0 -
          1 * Ain { cliArgs with ring_surface_brightness := some 1 } 0) /
        Aring { cliArgs with ring_surface_brightness := some 1 } 0 = 1) :=
  surface_brightness_consistency
    { cliArgs with ring_surface_brightness := some 1 } 0 1 rfl

/-- Claim C6: with positive ring thickness, nonnegative spacing and
nonnegative central diameter, `Rin j < Rout j ≤ Rin (j+1)` and
consecutive rings are separated by exactly `ring_spacing`. -/
theorem monotonic_radii (a : Args) (j : ℕ) (ht : 0 < a.ring_thickness)
    (hs : 0 ≤ a.ring_spacing) (hc : 0 ≤ a.central_diameter) :
    Rin a j < Rout a j ∧ Rout a j ≤ Rin a (j + 1) ∧
    Rin a (j + 1) - Rout a j = a.ring_spacing := by
  refine ⟨?_, ?_, ?_⟩
  · unfold Rout
    linarith
  · unfold Rout Rin
    push_cast
    nlinarith
  · unfold Rout Rin
    push_cast
    ring

/-- Witness for C6: the CLI default configuration at ring index 0. -/
theorem monotonic_radii_witness :
    Rin cliArgs 0 < Rout cliArgs 0 ∧ Rout cliArgs 0 ≤ Rin cliArgs 1 ∧
    Rin cliArgs 1 - Rout cliArgs 0 = cliArgs.ring_spacing :=
  monotonic_radii cliArgs 0 (by norm_num [cliArgs]) (by norm_num [cliArgs])
    (by norm_num [cliArgs])

/-- Claim C9: under `ring_thickness > 0`, `ring_spacing ≥ 0` and
`central_diameter ≥ 0`, the annulus area is strictly positive for every
ring index, so in total-flux mode the division succeeds and the error
branch is unreachable, with no precondition on the ring flux. -/
theorem division_safety (a : Args) (j : ℕ) (ht : 0 < a.ring_thickness)
    (hs : 0 ≤ a.ring_spacing) (hc : 0 ≤ a.central_diameter)
    (hsb : a.ring_surface_brightness = none) :
    0 < Aring a j ∧
    ringI a j = Except.ok (resolvedRingFlux a / Aring a j) := by
  have h := Aring_pos a j ht hs hc
  exact ⟨h, ringI_total a j hsb (ne_of_gt h)⟩

/-- Witness for C9: the CLI default configuration at ring index 2. -/
theorem division_safety_witness :
    0 < Aring cliArgs 2 ∧
    ringI cliArgs 2 = Except.ok (resolvedRingFlux cliArgs / Aring cliArgs 2) :=
  division_safety cliArgs 2 (by norm_num [cliArgs]) (by norm_num [cliArgs])
    (by norm_num [cliArgs]) rfl

/-- Claim C10: in total-flux mode with a positive resolved ring flux and
valid geometry, the annulus area strictly increases with the ring index
and the computed surface brightness `F / Aring j` strictly decreases. -/
theorem surface_brightness_decreasing (a : Args)
    (hsb : a.ring_surface_brightness = none) (ht : 0 < a.ring_thickness)
    (hs : 0 ≤ a.ring_spacing) (hc : 0 ≤ a.central_diameter)
    (hF : 0 < resolvedRingFlux a) :
    (∀ j, ringI a j = Except.ok (resolvedRingFlux a / Aring a j)) ∧
    StrictMono (fun j : ℕ => Aring a j) ∧
    StrictAnti (fun j : ℕ => resolvedRingFlux a / Aring a j) := by
  refine ⟨?_, ?_, ?_⟩
  · intro j
    exact ringI_total a j hsb (ne_of_gt (Aring_pos a j ht hs hc))
  · exact strictMono_nat_of_lt_succ fun j => Aring_lt_succ a j ht hs hc
  · exact strictAnti_nat_of_succ_lt fun j =>
      div_lt_div_of_pos_left hF (Aring_pos a j ht hs hc)
        (Aring_lt_succ a j ht hs hc)

/-- Witness for C10: the CLI default configuration. -/
theorem surface_brightness_decreasing_witness :
    (∀ j, ringI cliArgs j =
      Except.ok (resolvedRingFlux cliArgs / Aring cliArgs j)) ∧
    StrictMono (fun j : ℕ => Aring cliArgs j) ∧
    StrictAnti (fun j : ℕ => resolvedRingFlux cliArgs / Aring cliArgs j) :=
  surface_brightness_decreasing cliArgs rfl (by norm_num [cliArgs])
    (by norm_num [cliArgs]) (by norm_num [cliArgs])
    (by norm_num [resolvedRingFlux, cliArgs])

/-- The end-to-end scenario configuration of the spec: one ring, CLI
default geometry, `ring_flux = 2.7e-4`. -/
def scnArgs : Args :=
  { central_diameter := 0.0045, ring_thickness := 0.0045,
    ring_spacing := 0.009, n_rings := 1, flux := 2.7e-4,
    central_flux := none, ring_flux := some 2.7e-4,
    ring_surface_brightness := none }

/-- Counterexample to C3 as stated: on the scenario inputs the code
computes `Rout(0) = Rin(0) + ring_thickness = 0.00225 + 0.0045 =
0.00675`, not `0.0045`, and the annulus area is more than `4.6e-5` away
from the claimed `4.77e-5`. -/
theorem end_to_end_claim_counterexample :
    Rout scnArgs 0 = 0.00675 ∧ (0.00675 : ℚ) ≠ 0.0045 ∧
    4.6e-5 < |Aring scnArgs 0 - 4.77e-5| := by
  have hRout : Rout scnArgs 0 = 0.00675 := by
    norm_num [Rout, Rin, Rc, scnArgs]
  have hA : Aring scnArgs 0 =
      mathPi * ((0.00675 : ℚ) ^ 2 - (0.00225 : ℚ) ^ 2) := by
    unfold Aring Aout Ain
    rw [hRout]
    norm_num [Rin, Rc, scnArgs]
    ring
  refine ⟨hRout, by norm_num, ?_⟩
  rw [hA, lt_abs]
  left
  norm_num [mathPi]

/-- Claim C3 (amended): on the scenario inputs (central_diameter =
ring_thickness = 0.0045, ring_spacing = 0.009, n_rings = 1, ring_flux =
2.7e-4, total-flux mode) the computation yields Rin(0) = 0.00225,
Rout(0) = 0.00675, annulus area `mathPi * (0.00675^2 - 0.00225^2)`
(about 1.272e-4), surface brightness about 2.122, and fluxes exactly
Fout = 3.0375e-4, Finn = 3.375e-5, with net flux exactly 2.7e-4. -/
theorem end_to_end_scenario :
    Rin scnArgs 0 = 0.00225 ∧ Rout scnArgs 0 = 0.00675 ∧
    Aring scnArgs 0 = mathPi * ((0.00675 : ℚ) ^ 2 - (0.00225 : ℚ) ^ 2) ∧
    |Aring scnArgs 0 - 1.272e-4| < 1e-7 ∧
    ringI scnArgs 0 = Except.ok (2.7e-4 / Aring scnArgs 0) ∧
    |2.7e-4 / Aring scnArgs 0 - 2.122| < 1e-3 ∧
    ringFluxes scnArgs 0 = Except.ok (3.0375e-4, 3.375e-5) ∧
    (3.0375e-4 : ℚ) - 3.375e-5 = 2.7e-4 := by
  have hRin : Rin scnArgs 0 = 0.00225 := by
    norm_num [Rin, Rc, scnArgs]
  have hRout : Rout scnArgs 0 = 0.00675 := by
    norm_num [Rout, Rin, Rc, scnArgs]
  have hA : Aring scnArgs 0 =
      mathPi * ((0.00675 : ℚ) ^ 2 - (0.00225 : ℚ) ^ 2) := by
    unfold Aring Aout Ain
    rw [hRin, hRout]
    ring
  have hA0 : Aring scnArgs 0 ≠ 0 := by
    rw [hA]
    norm_num [mathPi]
  have hF : resolvedRingFlux scnArgs = 2.7e-4 := by
    norm_num [resolvedRingFlux, scnArgs]
  refine ⟨hRin, hRout, hA, ?_, ?_, ?_, ?_, by norm_num⟩
  · rw [hA]
    rw [abs_sub_lt_iff]
    norm_num [mathPi]
  · rw [ringI_total scnArgs 0 rfl hA0, hF]
  · rw [hA]
    rw [abs_sub_lt_iff]
    norm_num [mathPi]
  · rw [ringFluxes_total scnArgs 0 rfl hA0, hF, hA]
    unfold Aout Ain
    rw [hRin, hRout]
    norm_num [mathPi]

/-- Claim C4: flux-specification precedence.  With `flux = 2.7e-4`,
`ring_flux = 5e-3` and no surface brightness, every nondegenerate ring
carries net flux exactly 5e-3; additionally setting
`ring_surface_brightness = 1` switches the ring to surface-brightness
mode for every value of `ring_flux`; and the central disk uses
`central_flux` when set, else `flux`. -/
theorem override_precedence (a : Args) (j : ℕ)
    (hflux : a.flux = 2.7e-4) (hrf : a.ring_flux = some 5e-3)
    (hsb : a.ring_surface_brightness = none) (hA : Aring a j ≠ 0) :
    (∃ Fout Finn : ℚ, ringFluxes a j = Except.ok (Fout, Finn) ∧
      Fout - Finn = 5e-3) ∧
    (∀ rf : Option ℚ,
      ringI { a with ring_surface_brightness := some 1, ring_flux := rf } j =
        Except.ok 1) ∧
    (∀ c : ℚ, a.central_flux = some c → resolvedCentralFlux a = c) ∧
    (a.central_flux = none → resolvedCentralFlux a = a.flux) := by
  refine ⟨?_, ?_, ?_, ?_⟩
  · have hF : resolvedRingFlux a = 5e-3 := by
      rw [resolvedRingFlux, hrf]
      rfl
    refine ⟨_, _, ringFluxes_total a j hsb hA, ?_⟩
    rw [net_flux_total a j hA, hF]
  · intro rf
    exact ringI_sb _ j 1 rfl
  · intro c hcf
    rw [resolvedCentralFlux, hcf]
    rfl
  · intro hcf
    rw [resolvedCentralFlux, hcf]
    rfl

/-- Witness for C4: the CLI defaults with `ring_flux = 5e-3`, ring 0. -/
theorem override_precedence_witness :
    (∃ Fout Finn : ℚ,
      ringFluxes { cliArgs with ring_flux := some 5e-3 } 0 =
        Except.ok (Fout, Finn) ∧ Fout - Finn = 5e-3) ∧
    (∀ rf : Option ℚ,
      ringI { { cliArgs with ring_flux := some 5e-3 } with
          ring_surface_brightness := some 1, ring_flux := rf } 0 =
        Except.ok 1) ∧
    (∀ c : ℚ, ({ cliArgs with ring_flux := some 5e-3 } : Args).central_flux =
        some c →
      resolvedCentralFlux { cliArgs with ring_flux := some 5e-3 } = c) ∧
    (({ cliArgs with ring_flux := some 5e-3 } : Args).central_flux = none →
      resolvedCentralFlux { cliArgs with ring_flux := some 5e-3 } =
        ({ cliArgs with ring_flux := some 5e-3 } : Args).flux) :=
  override_precedence { cliArgs with ring_flux := some 5e-3 } 0 rfl rfl rfl
    (by norm_num [Aring, Aout, Ain, Rout, Rin, Rc, cliArgs, mathPi])

/-- Zero ring thickness in total-flux mode: the division hits a zero
annulus area. -/
def zeroThicknessTF : Args :=
  { central_diameter := 2, ring_thickness := 0, ring_spacing := 0,
    n_rings := 1, flux := 1, central_flux := none, ring_flux := none,
    ring_surface_brightness := none }

/-- Zero ring thickness in surface-brightness mode, with a nonzero inner
radius. -/
def zeroThicknessSB : Args :=
  { central_diameter := 2, ring_thickness := 0, ring_spacing := 0,
    n_rings := 1, flux := 0, central_flux := none, ring_flux := none,
    ring_surface_brightness := some 1 }

/-- Negative ring thickness in total-flux mode: the annulus area is
strictly negative. -/
def negThicknessTF : Args :=
  { central_diameter := 2, ring_thickness := -1, ring_spacing := 0,
    n_rings := 1, flux := 1, central_flux := none, ring_flux := none,
    ring_surface_brightness := none }

/-- Counterexample to C2 as stated: (i) in surface-brightness mode with
ring_thickness = 0 and inner radius 1, the fluxes are `Fout = Finn =
mathPi ≠ 0`, not `Fout = Finn = 0`; (ii) with a strictly negative
annulus area in total-flux mode the computation does not reject the ring
but succeeds, returning `(0, -1)`. -/
theorem degenerate_claim_counterexample :
    (ringFluxes zeroThicknessSB 0 = Except.ok (mathPi, mathPi) ∧
      mathPi ≠ 0) ∧
    (Aring negThicknessTF 0 < 0 ∧
      ringFluxes negThicknessTF 0 = Except.ok (0, -1)) := by
  have hA : Aring negThicknessTF 0 = -mathPi := by
    norm_num [Aring, Aout, Ain, Rout, Rin, Rc, negThicknessTF]
  refine ⟨⟨?_, by norm_num [mathPi]⟩, ?_, ?_⟩
  · rw [ringFluxes_sb zeroThicknessSB 0 1 rfl]
    norm_num [Aout, Ain, Rout, Rin, Rc, zeroThicknessSB]
  · rw [hA]
    norm_num [mathPi]
  · have hA0 : Aring negThicknessTF 0 ≠ 0 := by
      rw [hA]
      norm_num [mathPi]
    rw [ringFluxes_total negThicknessTF 0 rfl hA0, hA]
    norm_num [Aout, Ain, Rout, Rin, Rc, resolvedRingFlux, negThicknessTF, mathPi]

/-- Claim C2 (amended): with a zero annulus area in total-flux mode the
ring computation signals the degenerate-ring error (no NaN/Inf values
are produced); in surface-brightness mode it never errors and with zero
ring thickness yields `Fout = Finn` (net flux 0), though both are
nonzero whenever `I * Ain ≠ 0`; a strictly negative annulus area in
total-flux mode is not rejected: the computation succeeds. -/
theorem degenerate_ring_amended (a : Args) (j : ℕ) :
    (a.ring_surface_brightness = none → Aring a j = 0 →
      ringFluxes a j = Except.error RingError.degenerate) ∧
    (∀ I : ℚ, a.ring_surface_brightness = some I → a.ring_thickness = 0 →
      ringFluxes a j = Except.ok (I * Ain a j, I * Ain a j)) ∧
    (a.ring_surface_brightness = none → Aring a j < 0 →
      ringFluxes a j =
        Except.ok (resolvedRingFlux a / Aring a j * Aout a j,
          resolvedRingFlux a / Aring a j * Ain a j)) := by
  refine ⟨?_, ?_, ?_⟩
  · intro hsb hA
    unfold ringFluxes ringI
    rw [hsb]
    simp [hA]
  · intro I hsb ht
    have hout : Aout a j = Ain a j := by
      unfold Aout Ain Rout
      rw [ht]
      ring
    rw [ringFluxes_sb a j I hsb, hout]
  · intro hsb hA
    exact ringFluxes_total a j hsb (ne_of_lt hA)

/-- Witness for the amended C2: zero thickness errors in total-flux mode
and succeeds with equal fluxes in surface-brightness mode. -/
theorem degenerate_ring_amended_witness :
    ringFluxes zeroThicknessTF 0 = Except.error RingError.degenerate ∧
    ringFluxes zeroThicknessSB 0 =
      Except.ok (1 * Ain zeroThicknessSB 0, 1 * Ain zeroThicknessSB 0) :=
  ⟨(degenerate_ring_amended zeroThicknessTF 0).1 rfl
      (by norm_num [Aring, Aout, Ain, Rout, Rin, Rc, zeroThicknessTF]),
    (degenerate_ring_amended zeroThicknessSB 0).2.1 1 rfl
      (by norm_num [zeroThicknessSB])⟩

lemma ringsLoop_range' (center_dir freq : String) (a : Args) (n : ℕ) :
    ∀ s : ℕ,
      (∀ i, i < n → ∃ p : ℚ × ℚ, ringFluxes a (s + i) = Except.ok p) →
      ∃ L, ringsLoop center_dir freq a (List.range' s n) = Except.ok L ∧
        L.length = 2 * n ∧
        (∀ i, i < n → ∃ p : ℚ × ℚ, ringFluxes a (s + i) = Except.ok p ∧
          L.get? (2 * i) =
            some (add_disk center_dir (2 * Rout a (s + i)) p.1 freq) ∧
          L.get? (2 * i + 1) =
            some (add_disk center_dir (2 * Rin a (s + i)) (-p.2) freq)) ∧
        (∀ c ∈ L, c.dir = center_dir ∧ c.freq = freq ∧
          c.positionangle = 0) := by
  induction n with
  | zero =>
      intro s _
      refine ⟨[], by simp [ringsLoop], by simp, ?_, by simp⟩
      intro i hi
      exact absurd hi (Nat.not_lt_zero i)
  | succ n ih =>
      intro s h
      obtain ⟨p0, hp0⟩ := h 0 (Nat.succ_pos n)
      rw [Nat.add_zero] at hp0
      obtain ⟨L', hL', hlen, hidx, hmem⟩ := ih (s + 1) (fun i hi => by
        have hh := h (i + 1) (by omega)
        rwa [show s + (i + 1) = s + 1 + i by omega] at hh)
      refine ⟨add_disk center_dir (2 * Rout a s) p0.1 freq ::
          add_disk center_dir (2 * Rin a s) (-p0.2) freq :: L', ?_, ?_, ?_, ?_⟩
      · rw [List.range'_succ]
        simp only [ringsLoop]
        rw [hp0, hL']
      · simp only [List.length_cons, hlen]
        omega
      · intro i hi
        match i with
        | 0 =>
            refine ⟨p0, by rwa [Nat.add_zero], ?_, ?_⟩
            · rfl
            · rfl
        | Nat.succ i =>
            obtain ⟨p, hp, h1, h2⟩ := hidx i (by omega)
            rw [show s + 1 + i = s + (i + 1) by omega] at hp h1 h2
            refine ⟨p, hp, ?_, ?_⟩
            · rw [show 2 * (i + 1) = 2 * i + 1 + 1 by ring,
                List.get?_cons_succ, List.get?_cons_succ]
              exact h1
            · rw [show 2 * (i + 1) + 1 = 2 * i + 1 + 1 + 1 by ring,
                List.get?_cons_succ, List.get?_cons_succ]
              exact h2
      · intro c hc
        rcases List.mem_cons.mp hc with rfl | hc'
        · exact ⟨rfl, rfl, rfl⟩
        rcases List.mem_cons.mp hc' with rfl | hc''
        · exact ⟨rfl, rfl, rfl⟩
        exact hmem c hc''

/-- Claim C7: whenever every ring computation succeeds, the assembled
component list has exactly `1 + 2 * n_rings` entries: the central disk
first, then for each ring index in ascending order the outer disk
(diameter `2 * Rout`, flux `Fout`) followed by the inner disk (diameter
`2 * Rin`, flux `-Finn`), all sharing the center direction, the
frequency and position angle 0. -/
theorem component_count (center_dir freq : String) (a : Args)
    (hok : ∀ j, j < a.n_rings → ∃ p : ℚ × ℚ,
      ringFluxes a j = Except.ok p) :
    ∃ cs, buildModel center_dir freq a = Except.ok cs ∧
      cs.length = 1 + 2 * a.n_rings ∧
      cs.head? = some (add_disk center_dir a.central_diameter
        (resolvedCentralFlux a) freq) ∧
      (∀ j, j < a.n_rings → ∃ p : ℚ × ℚ, ringFluxes a j = Except.ok p ∧
        cs.get? (1 + 2 * j) =
          some (add_disk center_dir (2 * Rout a j) p.1 freq) ∧
        cs.get? (2 + 2 * j) =
          some (add_disk center_dir (2 * Rin a j) (-p.2) freq)) ∧
      (∀ c ∈ cs, c.dir = center_dir ∧ c.freq = freq ∧
        c.positionangle = 0) := by
  obtain ⟨L, hL, hlen, hidx, hmem⟩ :=
    ringsLoop_range' center_dir freq a a.n_rings 0
      (fun i hi => by simpa using hok i hi)
  refine ⟨add_disk center_dir a.central_diameter (resolvedCentralFlux a)
      freq :: L, ?_, ?_, rfl, ?_, ?_⟩
  · unfold buildModel
    rw [List.range_eq_range' a.n_rings, hL]
  · simp only [List.length_cons, hlen]
    omega
  · intro j hj
    obtain ⟨p, hp, h1, h2⟩ := hidx j hj
    rw [Nat.zero_add] at hp h1 h2
    refine ⟨p, hp, ?_, ?_⟩
    · rw [show 1 + 2 * j = 2 * j + 1 by ring, List.get?_cons_succ]
      exact h1
    · rw [show 2 + 2 * j = 2 * j + 1 + 1 by ring, List.get?_cons_succ]
      exact h2
  · intro c hc
    rcases List.mem_cons.mp hc with rfl | hc'
    · exact ⟨rfl, rfl, rfl⟩
    exact hmem c hc'

/-- Witness for C7: the CLI default configuration (n_rings = 3) with the
script's default center direction and frequency. -/
theorem component_count_witness :
    ∃ cs, buildModel "J2000 12h00m00.00s -23d00m00.00" "343.5GHz" cliArgs =
        Except.ok cs ∧
      cs.length = 1 + 2 * cliArgs.n_rings ∧
      cs.head? = some (add_disk "J2000 12h00m00.00s -23d00m00.00"
        cliArgs.central_diameter (resolvedCentralFlux cliArgs) "343.5GHz") ∧
      (∀ j, j < cliArgs.n_rings → ∃ p : ℚ × ℚ,
        ringFluxes cliArgs j = Except.ok p ∧
        cs.get? (1 + 2 * j) = some (add_disk "J2000 12h00m00.00s -23d00m00.00"
          (2 * Rout cliArgs j) p.1 "343.5GHz") ∧
        cs.get? (2 + 2 * j) = some (add_disk "J2000 12h00m00.00s -23d00m00.00"
          (2 * Rin cliArgs j) (-p.2) "343.5GHz")) ∧
      (∀ c ∈ cs, c.dir = "J2000 12h00m00.00s -23d00m00.00" ∧
        c.freq = "343.5GHz" ∧ c.positionangle = 0) :=
  component_count "J2000 12h00m00.00s -23d00m00.00" "343.5GHz" cliArgs
    (fun j _ => ⟨_, ringFluxes_total cliArgs j rfl
      (ne_of_gt (Aring_pos cliArgs j (by norm_num [cliArgs])
        (by norm_num [cliArgs]) (by norm_num [cliArgs])))⟩)

lemma mem_replaceChar_of_ne (old new x : Char) (s : List Char)
    (hxn : x ≠ new) (hx : x ∈ replaceChar old new s) : x ∈ s ∧ x ≠ old := by
  unfold replaceChar at hx
  obtain ⟨c, hc, hfc⟩ := List.mem_map.mp hx
  by_cases hco : c = old
  · rw [hco, if_pos rfl] at hfc
    exact absurd hfc.symm hxn
  · rw [if_neg hco] at hfc
    rw [← hfc]
    exact ⟨hc, hco⟩

/-- Claim C8: the declination tag replaces every hyphen with an m and
every plus sign with a p, and deletes every d and every dot; no hyphen,
d, or dot survives in the tag of any declination string, and the tag of
the default declination starts with the three characters m, 2, 3. -/
theorem dec_tag_spec :
    (∀ s : List Char,
      '-' ∉ decTag s ∧ 'd' ∉ decTag s ∧ '.' ∉ decTag s) ∧
    decTag ("-23d00m00.00".toList) = "m2300m0000".toList ∧
    List.take 3 (decTag ("-23d00m00.00".toList)) = "m23".toList := by
  refine ⟨fun s => ⟨?_, ?_, ?_⟩, by decide, by decide⟩
  · intro hmem
    have h1 := (List.mem_filter.mp hmem).1
    have h2 := (List.mem_filter.mp h1).1
    have h3 := mem_replaceChar_of_ne '+' 'p' '-' _ (by decide) h2
    have h4 := mem_replaceChar_of_ne '-' 'm' '-' _ (by decide) h3.1
    exact h4.2 rfl
  · intro hmem
    have h1 := (List.mem_filter.mp hmem).1
    have h2 := (List.mem_filter.mp h1).2
    simp at h2
  · intro hmem
    have h1 := (List.mem_filter.mp hmem).2
    simp at h1

end RingSkyModel
